import Mathlib

/-!
Shallow embedding of `src/MICASE_XML_Parser.py`: the record emitter `write`,
the recursive utterance-tree walker `process_utterance`, and the per-document
driver `parseXML` / batch loop.  Python strings that may be `None` are
modelled as `Option String`; Python truthiness and `str.strip()` are modelled
explicitly.  The emitted output is modelled as the list of records written to
the sink, with `renderRecord` giving the exact text appended per record.
-/

namespace MICASE

/-- Python `str.strip()` whitespace set (ASCII). -/
def isSpace (c : Char) : Bool :=
  c == ' ' || c == '\t' || c == '\n' || c == '\r' || c == '\x0b' || c == '\x0c'

/-- Python `s.strip()`. -/
def strip (s : String) : String :=
  ⟨((s.data.dropWhile isSpace).reverse.dropWhile isSpace).reverse⟩

/-- Python truthiness of a `str`: non-empty. -/
def pyTruthy (s : String) : Bool := !(s == "")

/-- Python truthiness of a value that is `None` or a `str`. -/
def optTruthy : Option String → Bool
  | none => false
  | some s => pyTruthy s

/-- Python truthiness of `x and x.strip()` for `x : None | str`
(the guard used throughout the parser before emitting text). -/
def textTruthy : Option String → Bool
  | none => false
  | some s => pyTruthy s && pyTruthy (strip s)

/-- Rendering of a `None | str` value inside a Python f-string:
`None` renders as the literal string `"None"`. -/
def fstr : Option String → String
  | none => "None"
  | some s => s

/-- Python `s.startswith(p)`. -/
def strStarts (s p : String) : Bool := p.data.isPrefixOf s.data

/-- Python `dict.get(k)` on an attribute mapping. -/
def getAttr : List (String × String) → String → Option String
  | [], _ => none
  | (a, v) :: rest, k => if a == k then some v else getAttr rest k

/-- One record written by `write`: the seven metadata values plus the text.
`sp_status`, `person_id`, `original_doc` may be Python `None`. -/
structure Record where
  sp_status : Option String
  l1 : String
  person_id : Option String
  text_type : String
  original_doc : Option String
  utterance_id : Nat
  text : String
deriving DecidableEq, Repr

/-- `write(output_file, text, sp_status, l1, person_id, text_type,
original_doc, utterance_id)` from the source: appends one record to the sink
when `text` is truthy (non-empty), otherwise writes nothing.  Modelled as the
list of records appended. -/
def write (text : String) (sp_status : Option String) (l1 : String)
    (person_id : Option String) (text_type : String)
    (original_doc : Option String) (utterance_id : Nat) : List Record :=
  if pyTruthy text then
    [{ sp_status := sp_status, l1 := l1, person_id := person_id,
       text_type := text_type, original_doc := original_doc,
       utterance_id := utterance_id, text := text }]
  else []

/-- The exact text `write` appends to the sink for one record
(each f-string line, then the text and a blank separator line). -/
def renderRecord (r : Record) : String :=
  "# sp_status = " ++ fstr r.sp_status ++ "\n" ++
  "# l1 = " ++ r.l1 ++ "\n" ++
  "# person_id = " ++ fstr r.person_id ++ "\n" ++
  "# discipline = NA\n" ++
  "# text_type = " ++ r.text_type ++ "\n" ++
  "# original_doc = " ++ fstr r.original_doc ++ "\n" ++
  "# utterance_id = " ++ toString r.utterance_id ++ "\n" ++
  "# sentence_id = TBD\n" ++
  r.text ++ "\n\n"

/-- The Python `parent_tail` list
`[output_file, child_tail, sp_status, l1, person_id, text_type, original_doc]`
(the shared sink dropped), plus `extras`: the elements appended beyond the
base seven by `parent_tail_copy.append(child_tail)` when a pending record is
already in flight.  `len(parent_tail) == 7` iff `extras = []`. -/
structure PTail where
  tail : Option String
  sp_status : Option String
  l1 : String
  person_id : Option String
  text_type : String
  original_doc : Option String
  extras : List (Option String)
deriving DecidableEq, Repr

mutual
/-- An XML element as exposed by `xml.etree.ElementTree`: tag, attributes,
optional `.text`, optional `.tail`, ordered children. -/
inductive Elem : Type where
  | mk (tag : String) (attrs : List (String × String)) (text : Option String)
      (tail : Option String) (children : ElemList)

/-- Ordered child list of an element. -/
inductive ElemList : Type where
  | nil : ElemList
  | cons (hd : Elem) (tl : ElemList) : ElemList
end

def Elem.tag : Elem → String
  | .mk t _ _ _ _ => t

def Elem.attrs : Elem → List (String × String)
  | .mk _ a _ _ _ => a

def Elem.text : Elem → Option String
  | .mk _ _ t _ _ => t

def Elem.tail : Elem → Option String
  | .mk _ _ _ t _ => t

def Elem.children : Elem → ElemList
  | .mk _ _ _ _ c => c

/-- Source line 76: `utterance.attrib.get('FLANG') if ... is not None else
'English'` — the first-language default applied at the point of read. -/
def l1Of (attrs : List (String × String)) : String :=
  match getAttr attrs "FLANG" with
  | some v => v
  | none => "English"

mutual
/-- `process_utterance(utterance, output_file, text_type, original_doc,
utterance_id, parent_tail)` from the source, returning the records appended
to the sink together with the updated `utterance_id`. -/
def process_utterance : Elem → String → Option String → Nat → Option PTail →
    List Record × Nat
  | .mk _tag attrs utext _utail children, text_type, original_doc,
      utterance_id, parent_tail =>
    let person_id := getAttr attrs "WHO"
    let sp_status := getAttr attrs "NSS"
    let l1 := l1Of attrs
    let first : List Record × Nat :=
      if textTruthy utext then
        (write (strip (utext.getD "")) sp_status l1 person_id text_type
          original_doc utterance_id, utterance_id + 1)
      else ([], utterance_id)
    let mid := process_children children sp_status l1 person_id text_type
      original_doc first.2 parent_tail
    match parent_tail with
    | some pt =>
      if optTruthy pt.tail && pt.extras.isEmpty then
        (first.1 ++ mid.1 ++ write (pt.tail.getD "") pt.sp_status pt.l1
          pt.person_id pt.text_type pt.original_doc mid.2, mid.2 + 1)
      else (first.1 ++ mid.1, mid.2)
    | none => (first.1 ++ mid.1, mid.2)

/-- The `for child in list(utterance)` loop body of `process_utterance`:
dispatch on each child's tag, threading `utterance_id` and accumulating the
records appended to the sink. -/
def process_children : ElemList → Option String → String → Option String →
    String → Option String → Nat → Option PTail → List Record × Nat
  | .nil, _, _, _, _, _, utterance_id, _ => ([], utterance_id)
  | .cons child rest, sp_status, l1, person_id, text_type, original_doc,
      utterance_id, parent_tail =>
    let step : List Record × Nat :=
      if strStarts child.tag "U" then
        let child_tail := if textTruthy child.tail then
            some (strip (child.tail.getD "")) else none
        let ptc := match parent_tail with
          | some pt => { pt with extras := pt.extras ++ [child_tail] }
          | none => ⟨child_tail, sp_status, l1, person_id, text_type,
              original_doc, []⟩
        process_utterance child text_type original_doc utterance_id (some ptc)
      else if strStarts child.tag "OVERLAP" && textTruthy child.text then
        let base := strip (child.text.getD "")
        let otext := if textTruthy child.tail then
            base ++ " " ++ strip (child.tail.getD "") else base
        (write otext sp_status l1 person_id text_type original_doc
          utterance_id, utterance_id + 1)
      else if child.tag == "FOREIGN" then ([], utterance_id)
      else if textTruthy child.tail then
        (write (strip (child.tail.getD "")) sp_status l1 person_id text_type
          original_doc utterance_id, utterance_id + 1)
      else ([], utterance_id)
    let next := process_children rest sp_status l1 person_id text_type
      original_doc step.2 parent_tail
    (step.1 ++ next.1, next.2)
end

def ElemList.toList : ElemList → List Elem
  | .nil => []
  | .cons c rest => c :: rest.toList

mutual
/-- All proper descendants of an element in document (preorder) order, as
enumerated by an ElementTree `.//` path. -/
def Elem.descendants : Elem → List Elem
  | .mk _ _ _ _ children => ElemList.descList children

def ElemList.descList : ElemList → List Elem
  | .nil => []
  | .cons c rest => c :: (Elem.descendants c ++ ElemList.descList rest)
end

/-- Source line 142: `root.find('.//TERM[@TYPE="SPEECHEVENT"]')` — the first
descendant `TERM` element whose `TYPE` attribute equals `SPEECHEVENT`. -/
def findTerm (root : Elem) : Option Elem :=
  root.descendants.find?
    (fun e => e.tag == "TERM" && getAttr e.attrs "TYPE" == some "SPEECHEVENT")

/-- Source line 143: `term_tag.text if term_tag is not None and term_tag.text
else 'NA'`. -/
def textTypeOf (root : Elem) : String :=
  match findTerm root with
  | some t =>
    match t.text with
    | some s => if pyTruthy s then s else "NA"
    | none => "NA"
  | none => "NA"

/-- Source line 148: `root.findall('.//BODY/*')` — the children of every
descendant `BODY` element, in document order. -/
def bodyElems (root : Elem) : List Elem :=
  ((root.descendants.filter (fun e => e.tag == "BODY")).map
    (fun e => e.children.toList)).flatten

/-- Source lines 147-150: the top-level loop over the body elements,
starting the per-document counter at the given id and processing only
elements whose tag starts with `'U'`. -/
def walkU : List Elem → String → Option String → Nat → List Record × Nat
  | [], _, _, utterance_id => ([], utterance_id)
  | e :: rest, text_type, original_doc, utterance_id =>
    if strStarts e.tag "U" then
      let r := process_utterance e text_type original_doc utterance_id none
      let rs := walkU rest text_type original_doc r.2
      (r.1 ++ rs.1, rs.2)
    else walkU rest text_type original_doc utterance_id

/-- The whole-document walk performed inside `parseXML` once the tree is
built: header metadata resolution, then the body loop with the counter
initialised to 1. -/
def walkBody (root : Elem) : List Record × Nat :=
  walkU (bodyElems root) (textTypeOf root) (getAttr root.attrs "ID") 1

/-- Outcome of `parseXML` for one document: either the output file's record
sequence, or the per-document parse failure report
`print(f"Parse error in file {filename}: {e}")`. -/
inductive ParseResult : Type where
  | created (records : List Record)
  | parseError (filename : String) (msg : String)
deriving DecidableEq, Repr

def ParseResult.isCreated : ParseResult → Bool
  | .created _ => true
  | _ => false

def ParseResult.isParseError : ParseResult → Bool
  | .parseError _ _ => true
  | _ => false

/-- `parseXML(xmlfile, filename, output_dir)` from the source, with the
outcome of the external `ET.parse` tree construction supplied as an
`Except`: on failure the walker is never invoked and the error is reported
with the filename; on success the document is walked and the records are
written. -/
def parseXML (filename : String) (parsed : Except String Elem) : ParseResult :=
  match parsed with
  | .error e => .parseError filename e
  | .ok root => .created (walkBody root).1

/-- The loop of `main` over the input directory: each file is handed to
`parseXML` in turn, regardless of earlier failures. -/
def runBatch (files : List (String × Except String Elem)) : List ParseResult :=
  files.map (fun f => parseXML f.1 f.2)

/-! ### Basic facts about Python truthiness and stripping -/

theorem pyTruthy_iff {s : String} : pyTruthy s = true ↔ s ≠ "" := by
  simp [pyTruthy]

theorem textTruthy_strip {t : Option String}
    (h : textTruthy t = true) : pyTruthy (strip (t.getD "")) = true := by
  cases t with
  | none => simp [textTruthy] at h
  | some s =>
    simp only [textTruthy, Bool.and_eq_true] at h
    simpa using h.2

theorem optTruthy_getD {t : Option String}
    (h : optTruthy t = true) : pyTruthy (t.getD "") = true := by
  cases t with
  | none => simp [optTruthy] at h
  | some s => simpa [optTruthy] using h

theorem pyTruthy_append_left {a : String} (b : String)
    (h : pyTruthy a = true) : pyTruthy (a ++ b) = true := by
  rw [pyTruthy_iff] at h ⊢
  intro hab
  apply h
  have : (a ++ b).data = [] := by rw [hab]
  rw [String.data_append] at this
  have ha : a.data = [] := (List.append_eq_nil.mp this).1
  exact String.ext (by simpa using ha)

/-! ### The utterance-id invariant: each emitted record consumes exactly one
id, so the ids of any walk are consecutive from the entry counter. -/

/-- A (records, final counter) pair whose record ids are `n, n+1, ...` in
emission order and whose final counter is the entry counter plus the number
of records emitted. -/
def IdsOk (n : Nat) (p : List Record × Nat) : Prop :=
  p.1.map Record.utterance_id = List.range' n p.1.length ∧
    p.2 = n + p.1.length

theorem idsOk_nil (n : Nat) : IdsOk n ([], n) := by
  simp [IdsOk]

theorem idsOk_write (n : Nat) (text : String) (sp : Option String)
    (l1v : String) (pid : Option String) (tt : String) (od : Option String)
    (h : pyTruthy text = true) :
    IdsOk n (write text sp l1v pid tt od n, n + 1) := by
  simp [IdsOk, write, h]

theorem idsOk_cat {n m : Nat} {a : List Record} {q : List Record × Nat}
    (h1 : IdsOk n (a, m)) (h2 : IdsOk m q) :
    IdsOk n (a ++ q.1, q.2) := by
  obtain ⟨h1m, h1l⟩ := h1
  obtain ⟨h2m, h2l⟩ := h2
  simp only [IdsOk, List.map_append, List.length_append] at *
  constructor
  · rw [h1m, h2m, h1l]
    have h := List.range'_append n a.length q.1.length 1
    simp only [Nat.one_mul] at h
    rw [Nat.add_comm q.1.length a.length] at h
    exact h
  · omega

theorem idsOk_pair {n : Nat} {p q : List Record × Nat}
    (h1 : IdsOk n p) (h2 : IdsOk p.2 q) :
    IdsOk n (p.1 ++ q.1, q.2) := by
  obtain ⟨a, m⟩ := p
  exact idsOk_cat h1 h2

mutual
theorem process_utterance_ids (u : Elem) (tt : String) (od : Option String)
    (n : Nat) (pt : Option PTail) :
    IdsOk n (process_utterance u tt od n pt) := by
  cases u with
  | mk tag attrs utext utail children =>
    simp only [process_utterance]
    by_cases hft : textTruthy utext = true
    · simp only [hft, if_true]
      have hw : IdsOk n (write (strip (utext.getD "")) (getAttr attrs "NSS")
          (l1Of attrs) (getAttr attrs "WHO") tt od n, n + 1) :=
        idsOk_write n _ _ _ _ _ _ (textTruthy_strip hft)
      have hmid := process_children_ids children (getAttr attrs "NSS")
        (l1Of attrs) (getAttr attrs "WHO") tt od (n + 1) pt
      cases pt with
      | none => exact idsOk_pair hw hmid
      | some p =>
        by_cases hfl : (optTruthy p.tail && p.extras.isEmpty) = true
        · simp only [hfl, if_true]
          have hop : optTruthy p.tail = true := by
            have h := hfl; simp only [Bool.and_eq_true] at h; exact h.1
          have hwf := idsOk_write (process_children children
              (getAttr attrs "NSS") (l1Of attrs) (getAttr attrs "WHO") tt od
              (n + 1) (some p)).2 (p.tail.getD "") p.sp_status p.l1
              p.person_id p.text_type p.original_doc (optTruthy_getD hop)
          have := idsOk_pair hw (idsOk_pair hmid hwf)
          simpa [List.append_assoc] using this
        · simp only [hfl, if_false]
          exact idsOk_pair hw hmid
    · simp only [hft, if_false]
      have hmid := process_children_ids children (getAttr attrs "NSS")
        (l1Of attrs) (getAttr attrs "WHO") tt od n pt
      cases pt with
      | none => simpa using hmid
      | some p =>
        by_cases hfl : (optTruthy p.tail && p.extras.isEmpty) = true
        · simp only [hfl, if_true]
          have hop : optTruthy p.tail = true := by
            have h := hfl; simp only [Bool.and_eq_true] at h; exact h.1
          have hwf := idsOk_write (process_children children
              (getAttr attrs "NSS") (l1Of attrs) (getAttr attrs "WHO") tt od
              n (some p)).2 (p.tail.getD "") p.sp_status p.l1
              p.person_id p.text_type p.original_doc (optTruthy_getD hop)
          have := idsOk_pair hmid hwf
          simpa [List.append_assoc] using this
        · simp only [hfl, if_false]
          simpa using hmid

theorem process_children_ids (cs : ElemList) (sp : Option String)
    (l1v : String) (pid : Option String) (tt : String) (od : Option String)
    (n : Nat) (pt : Option PTail) :
    IdsOk n (process_children cs sp l1v pid tt od n pt) := by
  cases cs with
  | nil => simpa [process_children] using idsOk_nil n
  | cons child rest =>
    simp only [process_children]
    by_cases hU : strStarts child.tag "U" = true
    · simp only [hU, if_true]
      exact idsOk_pair (process_utterance_ids child tt od n _)
        (process_children_ids rest sp l1v pid tt od _ pt)
    · simp only [hU, if_false]
      by_cases hO : (strStarts child.tag "OVERLAP" && textTruthy child.text)
          = true
      · simp only [hO, if_true]
        have hot : pyTruthy (strip (child.text.getD "")) = true := by
          have h := hO; simp only [Bool.and_eq_true] at h
          exact textTruthy_strip h.2
        by_cases hotl : textTruthy child.tail = true
        · simp only [hotl, if_true]
          have h1 := idsOk_write n (strip (child.text.getD "") ++ " " ++
            strip (child.tail.getD "")) sp l1v pid tt od
            (by
              have := pyTruthy_append_left
                (" " ++ strip (child.tail.getD "")) hot
              simpa [String.append_assoc] using this)
          have h2 := process_children_ids rest sp l1v pid tt od (n + 1) pt
          exact idsOk_pair h1 h2
        · simp only [hotl, if_false]
          have h1 := idsOk_write n (strip (child.text.getD "")) sp l1v pid
            tt od hot
          have h2 := process_children_ids rest sp l1v pid tt od (n + 1) pt
          exact idsOk_pair h1 h2
      · simp only [hO, if_false]
        by_cases hF : (child.tag == "FOREIGN") = true
        · simp only [hF, if_true]
          have h2 := process_children_ids rest sp l1v pid tt od n pt
          simpa using h2
        · simp only [hF, if_false]
          by_cases hT : textTruthy child.tail = true
          · simp only [hT, if_true]
            have h1 := idsOk_write n (strip (child.tail.getD "")) sp l1v
              pid tt od (textTruthy_strip hT)
            have h2 := process_children_ids rest sp l1v pid tt od (n + 1) pt
            exact idsOk_pair h1 h2
          · simp only [hT, if_false]
            have h2 := process_children_ids rest sp l1v pid tt od n pt
            simpa using h2
end

theorem walkU_ids (es : List Elem) (tt : String) (od : Option String)
    (n : Nat) : IdsOk n (walkU es tt od n) := by
  induction es generalizing n with
  | nil => simpa [walkU] using idsOk_nil n
  | cons e rest ih =>
    simp only [walkU]
    by_cases hU : strStarts e.tag "U" = true
    · simp only [hU, if_true]
      exact idsOk_pair (process_utterance_ids e tt od n none) (ih _)
    · simp only [hU, if_false]
      exact ih n

/-! ### Tag-dispatch facts: the branches of the child loop are mutually
exclusive because the tag markers start with distinct characters. -/

theorem not_foreign_of_startsU {t : String} (h : strStarts t "U" = true) :
    (t == "FOREIGN") = false := by
  obtain ⟨l⟩ := t
  cases l with
  | nil => simp [strStarts, List.isPrefixOf] at h
  | cons c cs =>
    simp only [strStarts] at h
    simp [List.isPrefixOf] at h
    rw [beq_eq_false_iff_ne]
    intro he
    have hd := congrArg String.data he
    simp at hd
    rw [hd.1] at h
    simp at h

theorem notU_of_startsOVERLAP {t : String}
    (h : strStarts t "OVERLAP" = true) : strStarts t "U" = false := by
  obtain ⟨l⟩ := t
  cases l with
  | nil => simp [strStarts, List.isPrefixOf] at h
  | cons c cs =>
    simp only [strStarts] at h ⊢
    simp [List.isPrefixOf] at h
    simp [List.isPrefixOf]
    rw [← h.1]
    decide

theorem not_foreign_of_startsOVERLAP {t : String}
    (h : strStarts t "OVERLAP" = true) : (t == "FOREIGN") = false := by
  obtain ⟨l⟩ := t
  cases l with
  | nil => simp [strStarts, List.isPrefixOf] at h
  | cons c cs =>
    simp only [strStarts] at h
    simp [List.isPrefixOf] at h
    rw [beq_eq_false_iff_ne]
    intro he
    have hd := congrArg String.data he
    simp at hd
    rw [hd.1] at h
    simp at h

/-! ### Non-whitespace content of emitted records -/

/-- The string contains at least one non-whitespace character
(it is not empty and not whitespace-only). -/
def HasInk (s : String) : Prop := ∃ c ∈ s.data, isSpace c = false

theorem mem_dropWhile_of_not {α : Type} (p : α → Bool) :
    ∀ (l : List α) (a : α), a ∈ l → p a = false → a ∈ l.dropWhile p := by
  intro l
  induction l with
  | nil => intro a ha _; simp at ha
  | cons x xs ih =>
    intro a ha hp
    by_cases hx : p x = true
    · rw [List.dropWhile_cons, if_pos hx]
      rcases List.mem_cons.mp ha with rfl | hmem
      · rw [hp] at hx; exact absurd hx (by simp)
      · exact ih a hmem hp
    · rw [List.dropWhile_cons, if_neg hx]
      exact ha

theorem mem_strip_of_not {s : String} {c : Char} (hc : c ∈ s.data)
    (hcs : isSpace c = false) : c ∈ (strip s).data := by
  have h1 := mem_dropWhile_of_not isSpace s.data c hc hcs
  have h2 := List.mem_reverse.mpr h1
  have h3 := mem_dropWhile_of_not isSpace _ c h2 hcs
  exact List.mem_reverse.mpr h3

theorem hasInk_strip {s : String} (h : pyTruthy (strip s) = true) :
    HasInk (strip s) := by
  have hsrc : ∃ c ∈ s.data, isSpace c = false := by
    by_contra hall
    push_neg at hall
    have hall' : ∀ c ∈ s.data, isSpace c = true := by
      intro c hc
      have := hall c hc
      revert this
      cases isSpace c <;> simp
    have hdw : s.data.dropWhile isSpace = [] :=
      List.dropWhile_eq_nil_iff.mpr hall'
    have : strip s = "" := by
      apply String.ext
      show ((s.data.dropWhile isSpace).reverse.dropWhile
        isSpace).reverse = []
      rw [hdw]
      rfl
    rw [pyTruthy_iff] at h
    exact h this
  obtain ⟨c, hc, hcs⟩ := hsrc
  exact ⟨c, mem_strip_of_not hc hcs, hcs⟩

theorem pyTruthy_strip_of_hasInk {s : String} (h : HasInk s) :
    pyTruthy (strip s) = true := by
  obtain ⟨c, hc, hcs⟩ := h
  rw [pyTruthy_iff]
  intro hz
  have : c ∈ (strip s).data := mem_strip_of_not hc hcs
  rw [hz] at this
  simp at this

theorem hasInk_append_left {a : String} (b : String) (h : HasInk a) :
    HasInk (a ++ b) := by
  obtain ⟨c, hc, hcs⟩ := h
  exact ⟨c, by rw [String.data_append]; exact List.mem_append_left _ hc, hcs⟩

theorem hasInk_of_mem_write {r : Record} {text : String} {sp : Option String}
    {l1v : String} {pid : Option String} {tt : String} {od : Option String}
    {i : Nat} (hm : r ∈ write text sp l1v pid tt od i) (h : HasInk text) :
    HasInk r.text := by
  by_cases hp : pyTruthy text = true
  · simp [write, hp] at hm
    rw [hm]
    exact h
  · simp [write, hp] at hm

/-- Invariant on the pending-parent record: if it has a deferred tail string,
that string has non-whitespace content (it was produced by a strip whose
result passed the truthiness check at creation). -/
def PtOk : Option PTail → Prop
  | none => True
  | some p => ∀ t, p.tail = some t → HasInk t

mutual
theorem process_utterance_texts (u : Elem) (tt : String) (od : Option String)
    (n : Nat) (pt : Option PTail) (hpt : PtOk pt) :
    ∀ r ∈ (process_utterance u tt od n pt).1, HasInk r.text := by
  cases u with
  | mk tag attrs utext utail children =>
    simp only [process_utterance]
    intro r hr
    have hfirst : ∀ m, r ∈ (if textTruthy utext = true then
        (write (strip (utext.getD "")) (getAttr attrs "NSS") (l1Of attrs)
          (getAttr attrs "WHO") tt od m, m + 1)
        else ([], m)).1 → HasInk r.text := by
      intro m hm
      by_cases hft : textTruthy utext = true
      · rw [if_pos hft] at hm
        exact hasInk_of_mem_write hm (hasInk_strip (textTruthy_strip hft))
      · rw [if_neg hft] at hm
        simp at hm
    have hmid : ∀ m, r ∈ (process_children children (getAttr attrs "NSS")
        (l1Of attrs) (getAttr attrs "WHO") tt od m pt).1 → HasInk r.text := by
      intro m hm
      exact process_children_texts children (getAttr attrs "NSS")
        (l1Of attrs) (getAttr attrs "WHO") tt od m pt hpt r hm
    cases pt with
    | none =>
      by_cases hft : textTruthy utext = true <;>
        simp only [hft, if_true, if_false] at hr <;>
        rcases List.mem_append.mp hr with hA | hB
      · exact hasInk_of_mem_write hA (hasInk_strip (textTruthy_strip hft))
      · exact hmid _ hB
      · simp at hA
      · exact hmid _ hB
    | some p =>
      by_cases hfl : (optTruthy p.tail && p.extras.isEmpty) = true
      · simp only [hfl, if_true] at hr
        have hop : optTruthy p.tail = true := by
          have h := hfl; simp only [Bool.and_eq_true] at h; exact h.1
        obtain ⟨t, hteq⟩ : ∃ t, p.tail = some t := by
          cases htl : p.tail with
          | none => rw [htl] at hop; simp [optTruthy] at hop
          | some t => exact ⟨t, rfl⟩
        have hink : HasInk t := hpt t hteq
        by_cases hft : textTruthy utext = true <;>
          simp only [hft, if_true, if_false] at hr <;>
          rcases List.mem_append.mp hr with hAB | hC
        · rcases List.mem_append.mp hAB with hA | hB
          · exact hasInk_of_mem_write hA
              (hasInk_strip (textTruthy_strip hft))
          · exact hmid _ hB
        · refine hasInk_of_mem_write hC ?_
          rw [hteq]
          exact hink
        · rcases List.mem_append.mp hAB with hA | hB
          · simp at hA
          · exact hmid _ hB
        · refine hasInk_of_mem_write hC ?_
          rw [hteq]
          exact hink
      · simp only [hfl, if_false] at hr
        by_cases hft : textTruthy utext = true <;>
          simp only [hft, if_true, if_false] at hr <;>
          rcases List.mem_append.mp hr with hA | hB
        · exact hasInk_of_mem_write hA (hasInk_strip (textTruthy_strip hft))
        · exact hmid _ hB
        · simp at hA
        · exact hmid _ hB

theorem process_children_texts (cs : ElemList) (sp : Option String)
    (l1v : String) (pid : Option String) (tt : String) (od : Option String)
    (n : Nat) (pt : Option PTail) (hpt : PtOk pt) :
    ∀ r ∈ (process_children cs sp l1v pid tt od n pt).1, HasInk r.text := by
  cases cs with
  | nil => simp [process_children]
  | cons child rest =>
    simp only [process_children]
    intro r hr
    have hnext : ∀ m, r ∈ (process_children rest sp l1v pid tt od m pt).1 →
        HasInk r.text := by
      intro m hm
      exact process_children_texts rest sp l1v pid tt od m pt hpt r hm
    by_cases hU : strStarts child.tag "U" = true
    · simp only [hU, if_true] at hr
      rcases List.mem_append.mp hr with hA | hB
      · refine process_utterance_texts child tt od n _ ?_ r hA
        cases pt with
        | none =>
          intro t hteq
          by_cases htl : textTruthy child.tail = true
          · rw [if_pos htl] at hteq
            have := Option.some.inj hteq
            rw [← this]
            exact hasInk_strip (textTruthy_strip htl)
          · rw [if_neg htl] at hteq
            exact absurd hteq (by simp)
        | some p =>
          intro t hteq
          exact hpt t hteq
      · exact hnext _ hB
    · simp only [hU, if_false] at hr
      by_cases hO : (strStarts child.tag "OVERLAP" && textTruthy child.text)
          = true
      · simp only [hO, if_true] at hr
        have hot : HasInk (strip (child.text.getD "")) := by
          have h := hO; simp only [Bool.and_eq_true] at h
          exact hasInk_strip (textTruthy_strip h.2)
        by_cases hotl : textTruthy child.tail = true <;>
          simp only [hotl, if_true, if_false] at hr <;>
          rcases List.mem_append.mp hr with hA | hB
        · exact hasInk_of_mem_write hA
            (by
              have h1 := hasInk_append_left " " hot
              have h2 := hasInk_append_left (strip (child.tail.getD "")) h1
              exact h2)
        · exact hnext _ hB
        · exact hasInk_of_mem_write hA hot
        · exact hnext _ hB
      · simp only [hO, if_false] at hr
        by_cases hF : (child.tag == "FOREIGN") = true
        · simp only [hF, if_true] at hr
          rcases List.mem_append.mp hr with hA | hB
          · simp at hA
          · exact hnext _ hB
        · simp only [hF, if_false] at hr
          by_cases hT : textTruthy child.tail = true <;>
            simp only [hT, if_true, if_false] at hr <;>
            rcases List.mem_append.mp hr with hA | hB
          · exact hasInk_of_mem_write hA (hasInk_strip (textTruthy_strip hT))
          · exact hnext _ hB
          · simp at hA
          · exact hnext _ hB
end

theorem walkU_texts (es : List Elem) (tt : String) (od : Option String)
    (n : Nat) : ∀ r ∈ (walkU es tt od n).1, HasInk r.text := by
  induction es generalizing n with
  | nil => simp [walkU]
  | cons e rest ih =>
    simp only [walkU]
    intro r hr
    by_cases hU : strStarts e.tag "U" = true
    · simp only [hU, if_true] at hr
      rcases List.mem_append.mp hr with hA | hB
      · exact process_utterance_texts e tt od n none trivial r hA
      · exact ih _ r hB
    · simp only [hU, if_false] at hr
      exact ih n r hr

/-! ### Structure of a call entered with a fresh pending-parent record:
the deferred tail is flushed as the last record of the call, right after all
records of the subtree, attributed to the stored (enclosing) context. -/

theorem process_utterance_flush (c : Elem) (tt : String) (od : Option String)
    (n : Nat) (t : String) (sp : Option String) (l1v : String)
    (pid : Option String) (tt2 : String) (od2 : Option String)
    (ht : pyTruthy t = true) :
    ∃ sub m,
      process_utterance c tt od n (some ⟨some t, sp, l1v, pid, tt2, od2, []⟩)
        = (sub ++ [⟨sp, l1v, pid, tt2, od2, m, t⟩], m + 1) := by
  cases c with
  | mk tag attrs utext utail children =>
    simp only [process_utterance]
    have hcond : (optTruthy (some t) &&
        ([] : List (Option String)).isEmpty) = true := by
      simp [optTruthy, ht]
    simp only [PTail.tail, PTail.extras, PTail.sp_status, PTail.l1,
      PTail.person_id, PTail.text_type, PTail.original_doc, hcond, if_true,
      Option.getD_some]
    simp only [write, ht, if_true]
    exact ⟨_, _, rfl⟩

/-! ### Foreign-span exclusion: the walk output does not depend on the text
content of FOREIGN-tagged elements anywhere in the tree. -/

mutual
/-- Erase the text of every FOREIGN-tagged element throughout the tree. -/
def scrubForeign : Elem → Elem
  | .mk tag attrs text tail children =>
    .mk tag attrs (if tag == "FOREIGN" then none else text) tail
      (scrubForeignList children)

def scrubForeignList : ElemList → ElemList
  | .nil => .nil
  | .cons c rest => .cons (scrubForeign c) (scrubForeignList rest)
end

theorem scrubForeign_tag (c : Elem) : (scrubForeign c).tag = c.tag := by
  cases c; rfl

theorem scrubForeign_tail (c : Elem) : (scrubForeign c).tail = c.tail := by
  cases c; rfl

theorem scrubForeign_text_of_ne (c : Elem)
    (h : (c.tag == "FOREIGN") = false) :
    (scrubForeign c).text = c.text := by
  cases c with
  | mk tag attrs text tail children =>
    simp only [Elem.tag] at h
    simp only [scrubForeign, Elem.text]
    rw [if_neg (by simp [h])]

theorem foreign_not_startsU {t : String} (h : (t == "FOREIGN") = true) :
    strStarts t "U" = false := by
  have ht : t = "FOREIGN" := eq_of_beq h
  rw [ht]
  decide

theorem foreign_not_startsOVERLAP {t : String}
    (h : (t == "FOREIGN") = true) : strStarts t "OVERLAP" = false := by
  have ht : t = "FOREIGN" := eq_of_beq h
  rw [ht]
  decide

mutual
theorem process_utterance_scrub (u : Elem) (tt : String) (od : Option String)
    (n : Nat) (pt : Option PTail) (hU : strStarts u.tag "U" = true) :
    process_utterance (scrubForeign u) tt od n pt =
      process_utterance u tt od n pt := by
  cases u with
  | mk tag attrs utext utail children =>
    have hF : (tag == "FOREIGN") = false :=
      not_foreign_of_startsU (by simpa [Elem.tag] using hU)
    simp only [scrubForeign]
    rw [if_neg (by simp [hF])]
    simp only [process_utterance]
    rw [process_children_scrub children (getAttr attrs "NSS") (l1Of attrs)
      (getAttr attrs "WHO") tt od _ pt]

theorem process_children_scrub (cs : ElemList) (sp : Option String)
    (l1v : String) (pid : Option String) (tt : String) (od : Option String)
    (n : Nat) (pt : Option PTail) :
    process_children (scrubForeignList cs) sp l1v pid tt od n pt =
      process_children cs sp l1v pid tt od n pt := by
  cases cs with
  | nil => rfl
  | cons child rest =>
    simp only [scrubForeignList, process_children]
    by_cases hF : (child.tag == "FOREIGN") = true
    · have hUU := foreign_not_startsU hF
      have hOV := foreign_not_startsOVERLAP hF
      simp only [scrubForeign_tag, scrubForeign_tail, hUU, hOV, hF,
        Bool.false_and, Bool.false_eq_true, if_false, if_true]
      rw [process_children_scrub rest sp l1v pid tt od n pt]
    · have hF' : (child.tag == "FOREIGN") = false := by simpa using hF
      have htext := scrubForeign_text_of_ne child hF'
      simp only [scrubForeign_tag, scrubForeign_tail, htext]
      by_cases hU : strStarts child.tag "U" = true
      · simp only [hU, if_true]
        rw [process_utterance_scrub child tt od n _ hU]
        rw [process_children_scrub rest sp l1v pid tt od _ pt]
      · simp only [hU, Bool.false_eq_true, if_false]
        rw [process_children_scrub rest sp l1v pid tt od _ pt]
end

/-- One dispatch step on a nested-utterance child when no pending record is
in flight: a fresh pending record holding the child's stripped tail is
created and the recursive call flushes it as its last record. -/
theorem process_children_consU_flush (c : Elem) (rest : ElemList)
    (sp : Option String) (l1v : String) (pid : Option String) (tt : String)
    (od : Option String) (n : Nat) (hU : strStarts c.tag "U" = true)
    (ht : textTruthy c.tail = true) :
    ∃ sub m,
      process_utterance c tt od n
          (some ⟨some (strip (c.tail.getD "")), sp, l1v, pid, tt, od, []⟩)
        = (sub ++ [⟨sp, l1v, pid, tt, od, m, strip (c.tail.getD "")⟩], m + 1)
      ∧ process_children (.cons c rest) sp l1v pid tt od n none
        = ((sub ++ [⟨sp, l1v, pid, tt, od, m, strip (c.tail.getD "")⟩]) ++
            (process_children rest sp l1v pid tt od (m + 1) none).1,
          (process_children rest sp l1v pid tt od (m + 1) none).2) := by
  obtain ⟨sub, m, hflush⟩ := process_utterance_flush c tt od n
    (strip (c.tail.getD "")) sp l1v pid tt od (textTruthy_strip ht)
  refine ⟨sub, m, hflush, ?_⟩
  simp only [process_children, hU, if_true, ht]
  rw [hflush]

/-! ## The claims -/

/-- C1: for every document walked, the utterance ids of the emitted records
are exactly 1, 2, 3, ... in emission order; in general, every walker call
entered with counter n emits records with consecutive ids n, n+1, ... and
returns the counter advanced by exactly the number of records it emitted, so
ids are strictly increasing with no gaps or repeats, two fragments from the
same node never share an id, and a node that emits nothing consumes no
id. -/
theorem claim_C1 :
    (∀ root : Elem,
      (walkBody root).1.map Record.utterance_id
        = List.range' 1 (walkBody root).1.length) ∧
    (∀ (u : Elem) (tt : String) (od : Option String) (n : Nat)
        (pt : Option PTail),
      (process_utterance u tt od n pt).1.map Record.utterance_id
          = List.range' n (process_utterance u tt od n pt).1.length ∧
        (process_utterance u tt od n pt).2
          = n + (process_utterance u tt od n pt).1.length) := by
  constructor
  · intro root
    exact (walkU_ids (bodyElems root) (textTypeOf root)
      (getAttr root.attrs "ID") 1).1
  · intro u tt od n pt
    exact process_utterance_ids u tt od n pt

/-- C5: a foreign-language span's own text content never appears in any
emitted record: the walk of any utterance node (every node the walker is
invoked on has a tag starting with 'U') is unchanged when the text of every
FOREIGN-tagged element in the tree is erased. -/
theorem claim_C5 (u : Elem) (tt : String) (od : Option String) (n : Nat)
    (pt : Option PTail) (hU : strStarts u.tag "U" = true) :
    process_utterance (scrubForeign u) tt od n pt
      = process_utterance u tt od n pt :=
  process_utterance_scrub u tt od n pt hU

/-- Witness for C5: a node with a FOREIGN child containing "bonjour". -/
theorem claim_C5_witness :
    strStarts (Elem.mk "U" [("WHO", "S1")] none none
      (.cons (.mk "FOREIGN" [] (some "bonjour") none .nil) .nil)).tag "U"
        = true ∧
    process_utterance (scrubForeign (Elem.mk "U" [("WHO", "S1")] none none
        (.cons (.mk "FOREIGN" [] (some "bonjour") none .nil) .nil)))
        "NA" (some "doc") 1 none
      = process_utterance (Elem.mk "U" [("WHO", "S1")] none none
        (.cons (.mk "FOREIGN" [] (some "bonjour") none .nil) .nil))
        "NA" (some "doc") 1 none :=
  ⟨by decide,
    claim_C5 (Elem.mk "U" [("WHO", "S1")] none none
      (.cons (.mk "FOREIGN" [] (some "bonjour") none .nil) .nil))
      "NA" (some "doc") 1 none (by decide)⟩

/-- C7: a parse failure means the walker is never invoked and zero output is
produced for that document, the failure is reported with the document's
identifier, and the batch continues: a batch of three with one malformed
document yields exactly two created outputs and one reported failure. -/
theorem claim_C7 (f1 f2 f3 : String) (t1 t3 : Elem) (e : String) :
    runBatch [(f1, .ok t1), (f2, .error e), (f3, .ok t3)]
      = [.created (walkBody t1).1, .parseError f2 e,
         .created (walkBody t3).1] ∧
    (runBatch [(f1, .ok t1), (f2, .error e), (f3, .ok t3)]).countP
      ParseResult.isCreated = 2 ∧
    (runBatch [(f1, .ok t1), (f2, .error e), (f3, .ok t3)]).countP
      ParseResult.isParseError = 1 ∧
    (∀ fn msg : String, parseXML fn (.error msg) = .parseError fn msg) := by
  refine ⟨rfl, ?_, ?_, fun fn msg => rfl⟩
  · rfl
  · rfl

/-- C8: a child whose tag is exactly FOREIGN is skipped entirely, including
its trailing tail text: the dispatch step for such a child equals processing
without the child, so no record for its tail is ever emitted. -/
theorem claim_C8 (child : Elem) (rest : ElemList) (sp : Option String)
    (l1v : String) (pid : Option String) (tt : String) (od : Option String)
    (n : Nat) (pt : Option PTail)
    (hF : (child.tag == "FOREIGN") = true) :
    process_children (.cons child rest) sp l1v pid tt od n pt
      = process_children rest sp l1v pid tt od n pt := by
  have hU := foreign_not_startsU hF
  have hO := foreign_not_startsOVERLAP hF
  simp only [process_children, hU, hO, hF, Bool.false_eq_true,
    Bool.false_and, if_false, if_true]
  simp

/-- Witness for C8: a FOREIGN child with non-empty tail "thanks" contributes
no record at all. -/
theorem claim_C8_witness :
    ((Elem.mk "FOREIGN" [] (some "bonjour") (some "thanks") .nil).tag
        == "FOREIGN") = true ∧
    process_children
        (.cons (.mk "FOREIGN" [] (some "bonjour") (some "thanks") .nil) .nil)
        none "English" (some "S1") "NA" (some "doc") 1 none
      = process_children .nil none "English" (some "S1") "NA" (some "doc")
          1 none :=
  ⟨by decide,
    claim_C8 (.mk "FOREIGN" [] (some "bonjour") (some "thanks") .nil) .nil
      none "English" (some "S1") "NA" (some "doc") 1 none (by decide)⟩

/-- C6: an overlap-span child with non-empty (after stripping) own text
yields exactly one record under the current active speaker context, whose
text is the span's stripped text joined to the span's stripped tail by a
single space when the tail is non-empty (just the stripped text otherwise),
consuming exactly one utterance id. -/
theorem claim_C6 (child : Elem) (rest : ElemList) (sp : Option String)
    (l1v : String) (pid : Option String) (tt : String) (od : Option String)
    (n : Nat) (pt : Option PTail)
    (hO : strStarts child.tag "OVERLAP" = true)
    (ht : textTruthy child.text = true) :
    process_children (.cons child rest) sp l1v pid tt od n pt
      = ({ sp_status := sp, l1 := l1v, person_id := pid, text_type := tt,
           original_doc := od, utterance_id := n,
           text := if textTruthy child.tail = true then
               strip (child.text.getD "") ++ " " ++
                 strip (child.tail.getD "")
             else strip (child.text.getD "") } ::
          (process_children rest sp l1v pid tt od (n + 1) pt).1,
        (process_children rest sp l1v pid tt od (n + 1) pt).2) := by
  have hUfalse := notU_of_startsOVERLAP hO
  have hot := textTruthy_strip ht
  simp only [process_children, hUfalse, Bool.false_eq_true, if_false, hO,
    ht, Bool.and_self, if_true]
  by_cases htl : textTruthy child.tail = true
  · simp only [htl, if_true]
    have hp : pyTruthy (strip (child.text.getD "") ++ " " ++
        strip (child.tail.getD "")) = true :=
      pyTruthy_append_left _ (pyTruthy_append_left _ hot)
    simp [write, hp]
  · simp only [htl, Bool.false_eq_true, if_false]
    simp [write, hot]

/-- Witness for C6: the scenario of an overlap span with text "oh" and tail
"really" under speaker S1 yields the single record "oh really". -/
theorem claim_C6_witness :
    strStarts (Elem.mk "OVERLAP" [] (some "oh") (some "really") .nil).tag
        "OVERLAP" = true ∧
    textTruthy (Elem.mk "OVERLAP" [] (some "oh") (some "really") .nil).text
        = true ∧
    process_children
        (.cons (.mk "OVERLAP" [] (some "oh") (some "really") .nil) .nil)
        none "English" (some "S1") "NA" (some "doc") 1 none
      = ([{ sp_status := none, l1 := "English", person_id := some "S1",
            text_type := "NA", original_doc := some "doc",
            utterance_id := 1, text := "oh really" }], 2) := by
  refine ⟨by decide, by decide, ?_⟩
  have h := claim_C6 (.mk "OVERLAP" [] (some "oh") (some "really") .nil)
    .nil none "English" (some "S1") "NA" (some "doc") 1 none (by decide)
    (by decide)
  exact h.trans (by decide)

/-- C10: an overlap-span child whose own text is empty or whitespace-only
but whose tail is non-empty falls through the overlap branch to the generic
tail branch: exactly one record containing only the stripped tail text is
emitted under the current active speaker context and one id is consumed. -/
theorem claim_C10 (child : Elem) (rest : ElemList) (sp : Option String)
    (l1v : String) (pid : Option String) (tt : String) (od : Option String)
    (n : Nat) (pt : Option PTail)
    (hO : strStarts child.tag "OVERLAP" = true)
    (hnt : textTruthy child.text = false)
    (htl : textTruthy child.tail = true) :
    process_children (.cons child rest) sp l1v pid tt od n pt
      = ({ sp_status := sp, l1 := l1v, person_id := pid, text_type := tt,
           original_doc := od, utterance_id := n,
           text := strip (child.tail.getD "") } ::
          (process_children rest sp l1v pid tt od (n + 1) pt).1,
        (process_children rest sp l1v pid tt od (n + 1) pt).2) := by
  have hUfalse := notU_of_startsOVERLAP hO
  have hF := not_foreign_of_startsOVERLAP hO
  simp only [process_children, hUfalse, hF, hnt, Bool.and_false,
    Bool.false_eq_true, if_false, htl, if_true]
  simp [write, textTruthy_strip htl]

/-- Witness for C10: an overlap span with no own text and tail "really"
yields the single record "really". -/
theorem claim_C10_witness :
    strStarts (Elem.mk "OVERLAP" [] none (some "really") .nil).tag "OVERLAP"
        = true ∧
    textTruthy (Elem.mk "OVERLAP" [] none (some "really") .nil).text
        = false ∧
    textTruthy (Elem.mk "OVERLAP" [] none (some "really") .nil).tail
        = true ∧
    process_children
        (.cons (.mk "OVERLAP" [] none (some "really") .nil) .nil)
        none "English" (some "S1") "NA" (some "doc") 1 none
      = ([{ sp_status := none, l1 := "English", person_id := some "S1",
            text_type := "NA", original_doc := some "doc",
            utterance_id := 1, text := "really" }], 2) := by
  refine ⟨by decide, by decide, by decide, ?_⟩
  have h := claim_C10 (.mk "OVERLAP" [] none (some "really") .nil)
    .nil none "English" (some "S1") "NA" (some "doc") 1 none (by decide)
    (by decide) (by decide)
  exact h.trans (by decide)

/-- C2 counterexample: the claim fails for nested utterance children at
depth two.  Here the outer node S0 has a nested utterance child S1 which
itself has a nested utterance child S2 with non-empty tail "bye".  Because
the walker call on S1 is already carrying a pending-parent record, the tail
of S2 is appended to the propagated list (making its length exceed seven)
and is never flushed: the output contains only the "hi" record and no
record with text "bye" under any speaker. -/
theorem claim_C2_counterexample :
    process_utterance
        (.mk "U" [("WHO", "S0")] none none
          (.cons (.mk "U" [("WHO", "S1")] none none
            (.cons (.mk "U" [("WHO", "S2")] (some "hi") (some "bye") .nil)
              .nil)) .nil))
        "NA" (some "doc") 1 none
      = ([{ sp_status := none, l1 := "English", person_id := some "S2",
            text_type := "NA", original_doc := some "doc",
            utterance_id := 1, text := "hi" }], 2) ∧
    ({ sp_status := none, l1 := "English", person_id := some "S1",
       text_type := "NA", original_doc := some "doc", utterance_id := 2,
       text := "bye" } : Record) ∉
      (process_utterance
        (.mk "U" [("WHO", "S0")] none none
          (.cons (.mk "U" [("WHO", "S1")] none none
            (.cons (.mk "U" [("WHO", "S2")] (some "hi") (some "bye") .nil)
              .nil)) .nil))
        "NA" (some "doc") 1 none).1 := by
  constructor
  · decide
  · decide

/-- C2 (amended): for a node processed with no pending-parent record, each
nested utterance child with non-empty (after stripping) tail text has that
tail emitted as a record carrying the enclosing node's speaker context
(person_id, sp_status, l1), positioned immediately after all records
produced by that child's subtree.  (When the enclosing node is itself being
processed with a pending record in flight — nesting depth two or more — the
child's tail is appended to the propagated list and never emitted; see the
counterexample.)  The S1/S2 "hello there"/"hi"/"thanks" scenario holds and
is the witness. -/
theorem claim_C2_amended (tag : String) (attrs : List (String × String))
    (utext utail : Option String) (c : Elem) (rest : ElemList) (tt : String)
    (od : Option String) (n : Nat)
    (hU : strStarts c.tag "U" = true) (ht : textTruthy c.tail = true) :
    ∃ own sub restOut m fin,
      process_utterance (.mk tag attrs utext utail (.cons c rest)) tt od n
          none
        = (own ++ (sub ++ [⟨getAttr attrs "NSS", l1Of attrs,
            getAttr attrs "WHO", tt, od, m, strip (c.tail.getD "")⟩]) ++
            restOut, fin)
      ∧ process_utterance c tt od (n + own.length)
          (some ⟨some (strip (c.tail.getD "")), getAttr attrs "NSS",
            l1Of attrs, getAttr attrs "WHO", tt, od, []⟩)
        = (sub ++ [⟨getAttr attrs "NSS", l1Of attrs, getAttr attrs "WHO",
            tt, od, m, strip (c.tail.getD "")⟩], m + 1) := by
  by_cases hft : textTruthy utext = true
  · obtain ⟨sub, m, hpu, hpc⟩ := process_children_consU_flush c rest
      (getAttr attrs "NSS") (l1Of attrs) (getAttr attrs "WHO") tt od (n + 1)
      hU ht
    refine ⟨write (strip (utext.getD "")) (getAttr attrs "NSS")
      (l1Of attrs) (getAttr attrs "WHO") tt od n, sub,
      (process_children rest (getAttr attrs "NSS") (l1Of attrs)
        (getAttr attrs "WHO") tt od (m + 1) none).1, m,
      (process_children rest (getAttr attrs "NSS") (l1Of attrs)
        (getAttr attrs "WHO") tt od (m + 1) none).2, ?_, ?_⟩
    · simp only [process_utterance, hft, if_true]
      rw [hpc]
      simp [List.append_assoc]
    · have hlen : (write (strip (utext.getD "")) (getAttr attrs "NSS")
          (l1Of attrs) (getAttr attrs "WHO") tt od n).length = 1 := by
        simp [write, textTruthy_strip hft]
      rw [hlen]
      exact hpu
  · obtain ⟨sub, m, hpu, hpc⟩ := process_children_consU_flush c rest
      (getAttr attrs "NSS") (l1Of attrs) (getAttr attrs "WHO") tt od n hU ht
    refine ⟨[], sub,
      (process_children rest (getAttr attrs "NSS") (l1Of attrs)
        (getAttr attrs "WHO") tt od (m + 1) none).1, m,
      (process_children rest (getAttr attrs "NSS") (l1Of attrs)
        (getAttr attrs "WHO") tt od (m + 1) none).2, ?_, ?_⟩
    · simp only [process_utterance, hft, Bool.false_eq_true, if_false]
      rw [hpc]
      simp [List.append_assoc]
    · simpa using hpu

/-- Witness for C2 (amended): the spec's concrete scenario — a node with
person_id "S1", leading text "hello there", and nested utterance child "S2"
with text "hi" and tail "thanks" — yields exactly the three records
S1:"hello there", S2:"hi", S1:"thanks" with ids 1, 2, 3. -/
theorem claim_C2_amended_witness :
    (∃ own sub restOut m fin,
      process_utterance (.mk "U" [("WHO", "S1")] (some "hello there") none
          (.cons (.mk "U" [("WHO", "S2")] (some "hi") (some "thanks") .nil)
            .nil)) "NA" (some "doc") 1 none
        = (own ++ (sub ++ [⟨getAttr [("WHO", "S1")] "NSS",
            l1Of [("WHO", "S1")], getAttr [("WHO", "S1")] "WHO", "NA",
            some "doc", m,
            strip ((Elem.mk "U" [("WHO", "S2")] (some "hi") (some "thanks")
              .nil).tail.getD "")⟩]) ++ restOut, fin)
      ∧ process_utterance
          (.mk "U" [("WHO", "S2")] (some "hi") (some "thanks") .nil) "NA"
          (some "doc") (1 + own.length)
          (some ⟨some (strip ((Elem.mk "U" [("WHO", "S2")] (some "hi")
              (some "thanks") .nil).tail.getD "")),
            getAttr [("WHO", "S1")] "NSS", l1Of [("WHO", "S1")],
            getAttr [("WHO", "S1")] "WHO", "NA", some "doc", []⟩)
        = (sub ++ [⟨getAttr [("WHO", "S1")] "NSS", l1Of [("WHO", "S1")],
            getAttr [("WHO", "S1")] "WHO", "NA", some "doc", m,
            strip ((Elem.mk "U" [("WHO", "S2")] (some "hi") (some "thanks")
              .nil).tail.getD "")⟩], m + 1)) ∧
    process_utterance (.mk "U" [("WHO", "S1")] (some "hello there") none
        (.cons (.mk "U" [("WHO", "S2")] (some "hi") (some "thanks") .nil)
          .nil)) "NA" (some "doc") 1 none
      = ([{ sp_status := none, l1 := "English", person_id := some "S1",
            text_type := "NA", original_doc := some "doc",
            utterance_id := 1, text := "hello there" },
          { sp_status := none, l1 := "English", person_id := some "S2",
            text_type := "NA", original_doc := some "doc",
            utterance_id := 2, text := "hi" },
          { sp_status := none, l1 := "English", person_id := some "S1",
            text_type := "NA", original_doc := some "doc",
            utterance_id := 3, text := "thanks" }], 4) :=
  ⟨claim_C2_amended "U" [("WHO", "S1")] (some "hello there") none
      (.mk "U" [("WHO", "S2")] (some "hi") (some "thanks") .nil) .nil "NA"
      (some "doc") 1 (by decide) (by decide),
    by decide⟩

/-- C9: for a call entered with no pending-parent record, each of two (or
more) sibling nested-utterance children with non-empty tails gets its own
fresh deferred record: each sibling's tail is emitted as a separate record
under the enclosing node's speaker context immediately after that sibling's
subtree, in sibling order. -/
theorem claim_C9 (tag : String) (attrs : List (String × String))
    (utext utail : Option String) (c1 c2 : Elem) (rest : ElemList)
    (tt : String) (od : Option String) (n : Nat)
    (hU1 : strStarts c1.tag "U" = true) (hU2 : strStarts c2.tag "U" = true)
    (ht1 : textTruthy c1.tail = true) (ht2 : textTruthy c2.tail = true) :
    ∃ own sub1 m1 sub2 m2 restOut fin,
      process_utterance
          (.mk tag attrs utext utail (.cons c1 (.cons c2 rest))) tt od n none
        = (own ++ (sub1 ++ [⟨getAttr attrs "NSS", l1Of attrs,
            getAttr attrs "WHO", tt, od, m1, strip (c1.tail.getD "")⟩]) ++
            (sub2 ++ [⟨getAttr attrs "NSS", l1Of attrs,
              getAttr attrs "WHO", tt, od, m2,
              strip (c2.tail.getD "")⟩]) ++ restOut, fin)
      ∧ process_utterance c1 tt od (n + own.length)
          (some ⟨some (strip (c1.tail.getD "")), getAttr attrs "NSS",
            l1Of attrs, getAttr attrs "WHO", tt, od, []⟩)
        = (sub1 ++ [⟨getAttr attrs "NSS", l1Of attrs, getAttr attrs "WHO",
            tt, od, m1, strip (c1.tail.getD "")⟩], m1 + 1)
      ∧ process_utterance c2 tt od (m1 + 1)
          (some ⟨some (strip (c2.tail.getD "")), getAttr attrs "NSS",
            l1Of attrs, getAttr attrs "WHO", tt, od, []⟩)
        = (sub2 ++ [⟨getAttr attrs "NSS", l1Of attrs, getAttr attrs "WHO",
            tt, od, m2, strip (c2.tail.getD "")⟩], m2 + 1) := by
  by_cases hft : textTruthy utext = true
  · obtain ⟨sub1, m1, hpu1, hpc1⟩ := process_children_consU_flush c1
      (.cons c2 rest) (getAttr attrs "NSS") (l1Of attrs)
      (getAttr attrs "WHO") tt od (n + 1) hU1 ht1
    obtain ⟨sub2, m2, hpu2, hpc2⟩ := process_children_consU_flush c2 rest
      (getAttr attrs "NSS") (l1Of attrs) (getAttr attrs "WHO") tt od
      (m1 + 1) hU2 ht2
    refine ⟨write (strip (utext.getD "")) (getAttr attrs "NSS")
      (l1Of attrs) (getAttr attrs "WHO") tt od n, sub1, m1, sub2, m2,
      (process_children rest (getAttr attrs "NSS") (l1Of attrs)
        (getAttr attrs "WHO") tt od (m2 + 1) none).1,
      (process_children rest (getAttr attrs "NSS") (l1Of attrs)
        (getAttr attrs "WHO") tt od (m2 + 1) none).2, ?_, ?_, hpu2⟩
    · simp only [process_utterance, hft, if_true]
      rw [hpc1, hpc2]
      simp [List.append_assoc]
    · have hlen : (write (strip (utext.getD "")) (getAttr attrs "NSS")
          (l1Of attrs) (getAttr attrs "WHO") tt od n).length = 1 := by
        simp [write, textTruthy_strip hft]
      rw [hlen]
      exact hpu1
  · obtain ⟨sub1, m1, hpu1, hpc1⟩ := process_children_consU_flush c1
      (.cons c2 rest) (getAttr attrs "NSS") (l1Of attrs)
      (getAttr attrs "WHO") tt od n hU1 ht1
    obtain ⟨sub2, m2, hpu2, hpc2⟩ := process_children_consU_flush c2 rest
      (getAttr attrs "NSS") (l1Of attrs) (getAttr attrs "WHO") tt od
      (m1 + 1) hU2 ht2
    refine ⟨[], sub1, m1, sub2, m2,
      (process_children rest (getAttr attrs "NSS") (l1Of attrs)
        (getAttr attrs "WHO") tt od (m2 + 1) none).1,
      (process_children rest (getAttr attrs "NSS") (l1Of attrs)
        (getAttr attrs "WHO") tt od (m2 + 1) none).2, ?_, ?_, hpu2⟩
    · simp only [process_utterance, hft, Bool.false_eq_true, if_false]
      rw [hpc1, hpc2]
      simp [List.append_assoc]
    · simpa using hpu1

/-- Witness for C9: a node S0 with two sibling nested utterances S1 (tail
"t1") and S2 (tail "t2"); both tails come back to S0, each right after its
own sibling's records, in sibling order. -/
theorem claim_C9_witness :
    (∃ own sub1 m1 sub2 m2 restOut fin,
      process_utterance
          (.mk "U" [("WHO", "S0")] (some "lead") none
            (.cons (.mk "U" [("WHO", "S1")] (some "a") (some "t1") .nil)
              (.cons (.mk "U" [("WHO", "S2")] (some "b") (some "t2") .nil)
                .nil))) "NA" (some "doc") 1 none
        = (own ++ (sub1 ++ [⟨getAttr [("WHO", "S0")] "NSS",
            l1Of [("WHO", "S0")], getAttr [("WHO", "S0")] "WHO", "NA",
            some "doc", m1,
            strip ((Elem.mk "U" [("WHO", "S1")] (some "a") (some "t1")
              .nil).tail.getD "")⟩]) ++
            (sub2 ++ [⟨getAttr [("WHO", "S0")] "NSS", l1Of [("WHO", "S0")],
              getAttr [("WHO", "S0")] "WHO", "NA", some "doc", m2,
              strip ((Elem.mk "U" [("WHO", "S2")] (some "b") (some "t2")
                .nil).tail.getD "")⟩]) ++ restOut, fin)
      ∧ process_utterance
          (.mk "U" [("WHO", "S1")] (some "a") (some "t1") .nil) "NA"
          (some "doc") (1 + own.length)
          (some ⟨some (strip ((Elem.mk "U" [("WHO", "S1")] (some "a")
              (some "t1") .nil).tail.getD "")),
            getAttr [("WHO", "S0")] "NSS", l1Of [("WHO", "S0")],
            getAttr [("WHO", "S0")] "WHO", "NA", some "doc", []⟩)
        = (sub1 ++ [⟨getAttr [("WHO", "S0")] "NSS", l1Of [("WHO", "S0")],
            getAttr [("WHO", "S0")] "WHO", "NA", some "doc", m1,
            strip ((Elem.mk "U" [("WHO", "S1")] (some "a") (some "t1")
              .nil).tail.getD "")⟩], m1 + 1)
      ∧ process_utterance
          (.mk "U" [("WHO", "S2")] (some "b") (some "t2") .nil) "NA"
          (some "doc") (m1 + 1)
          (some ⟨some (strip ((Elem.mk "U" [("WHO", "S2")] (some "b")
              (some "t2") .nil).tail.getD "")),
            getAttr [("WHO", "S0")] "NSS", l1Of [("WHO", "S0")],
            getAttr [("WHO", "S0")] "WHO", "NA", some "doc", []⟩)
        = (sub2 ++ [⟨getAttr [("WHO", "S0")] "NSS", l1Of [("WHO", "S0")],
            getAttr [("WHO", "S0")] "WHO", "NA", some "doc", m2,
            strip ((Elem.mk "U" [("WHO", "S2")] (some "b") (some "t2")
              .nil).tail.getD "")⟩], m2 + 1)) ∧
    process_utterance
        (.mk "U" [("WHO", "S0")] (some "lead") none
          (.cons (.mk "U" [("WHO", "S1")] (some "a") (some "t1") .nil)
            (.cons (.mk "U" [("WHO", "S2")] (some "b") (some "t2") .nil)
              .nil))) "NA" (some "doc") 1 none
      = ([{ sp_status := none, l1 := "English", person_id := some "S0",
            text_type := "NA", original_doc := some "doc",
            utterance_id := 1, text := "lead" },
          { sp_status := none, l1 := "English", person_id := some "S1",
            text_type := "NA", original_doc := some "doc",
            utterance_id := 2, text := "a" },
          { sp_status := none, l1 := "English", person_id := some "S0",
            text_type := "NA", original_doc := some "doc",
            utterance_id := 3, text := "t1" },
          { sp_status := none, l1 := "English", person_id := some "S2",
            text_type := "NA", original_doc := some "doc",
            utterance_id := 4, text := "b" },
          { sp_status := none, l1 := "English", person_id := some "S0",
            text_type := "NA", original_doc := some "doc",
            utterance_id := 5, text := "t2" }], 6) :=
  ⟨claim_C9 "U" [("WHO", "S0")] (some "lead") none
      (.mk "U" [("WHO", "S1")] (some "a") (some "t1") .nil)
      (.mk "U" [("WHO", "S2")] (some "b") (some "t2") .nil) .nil "NA"
      (some "doc") 1 (by decide) (by decide) (by decide) (by decide),
    by decide⟩

/-- C3 counterexample: an utterance node with no WHO/NSS attributes emits a
record whose person_id and sp_status are Python None, and the output block
renders the literal string "None" after the '=' sign — not an empty value
as the claim states. -/
theorem claim_C3_counterexample :
    process_utterance (.mk "U" [] (some "hi") none .nil) "NA" (some "doc")
        1 none
      = ([{ sp_status := none, l1 := "English", person_id := none,
            text_type := "NA", original_doc := some "doc",
            utterance_id := 1, text := "hi" }], 2) ∧
    renderRecord
        { sp_status := none, l1 := "English", person_id := none,
          text_type := "NA", original_doc := some "doc", utterance_id := 1,
          text := "hi" }
      = "# sp_status = None\n# l1 = English\n# person_id = None\n# discipline = NA\n# text_type = NA\n# original_doc = doc\n# utterance_id = 1\n# sentence_id = TBD\nhi\n\n" ∧
    renderRecord
        { sp_status := none, l1 := "English", person_id := none,
          text_type := "NA", original_doc := some "doc", utterance_id := 1,
          text := "hi" }
      ≠ "# sp_status = \n# l1 = English\n# person_id = \n# discipline = NA\n# text_type = NA\n# original_doc = doc\n# utterance_id = 1\n# sentence_id = TBD\nhi\n\n" := by
  refine ⟨?_, ?_, ?_⟩
  · decide
  · decide
  · decide

/-- C3 (amended): missing optional metadata is never an error and is
resolved at the point of read: an absent FLANG attribute yields
l1 = "English" and an absent SPEECHEVENT header term yields
text_type = "NA"; absent WHO/NSS attributes yield Python None for
person_id/sp_status, and the metadata line is still present but renders the
literal "None" after the '=' (not an empty value). -/
theorem claim_C3_amended (attrs : List (String × String)) (s tag : String)
    (utail : Option String) (tt : String) (od : Option String) (n : Nat)
    (root : Elem) (hf : getAttr attrs "FLANG" = none)
    (hw : getAttr attrs "WHO" = none) (hn : getAttr attrs "NSS" = none)
    (hterm : findTerm root = none) (hs : textTruthy (some s) = true) :
    textTypeOf root = "NA" ∧
    process_utterance (.mk tag attrs (some s) utail .nil) tt od n none
      = ([{ sp_status := none, l1 := "English", person_id := none,
            text_type := tt, original_doc := od, utterance_id := n,
            text := strip s }], n + 1) ∧
    fstr (getAttr attrs "WHO") = "None" ∧
    fstr (getAttr attrs "NSS") = "None" := by
  refine ⟨?_, ?_, ?_, ?_⟩
  · simp [textTypeOf, hterm]
  · have hps : pyTruthy (strip s) = true := by
      simpa using textTruthy_strip hs
    simp only [process_utterance, process_children, hs, if_true]
    simp [write, hps, l1Of, hf, hw, hn]
  · rw [hw]; rfl
  · rw [hn]; rfl

/-- Witness for C3 (amended): a node with empty attribute map and text "hi"
in a document with no SPEECHEVENT header term. -/
theorem claim_C3_amended_witness :
    textTypeOf (.mk "ROOT" [] none none .nil) = "NA" ∧
    process_utterance (.mk "U" [] (some "hi") none .nil) "NA" (some "doc")
        1 none
      = ([{ sp_status := none, l1 := "English", person_id := none,
            text_type := "NA", original_doc := some "doc",
            utterance_id := 1, text := "hi" }], 2) ∧
    fstr (getAttr [] "WHO") = "None" ∧
    fstr (getAttr [] "NSS") = "None" := by
  have h := claim_C3_amended [] "hi" "U" none "NA" (some "doc") 1
    (.mk "ROOT" [] none none .nil) rfl rfl rfl rfl (by decide)
  refine ⟨h.1, ?_, h.2.2.1, h.2.2.2⟩
  have h2 := h.2.1
  rw [h2]
  decide

/-- C4 counterexample: the emitter is not a no-op on whitespace-only text —
`write` filters only on Python truthiness (emptiness) of the text exactly
as passed, without trimming, so a whitespace-only text produces a block. -/
theorem claim_C4_counterexample :
    write " " none "English" none "NA" (some "doc") 1
      = [{ sp_status := none, l1 := "English", person_id := none,
           text_type := "NA", original_doc := some "doc",
           utterance_id := 1, text := " " }] ∧
    write " " none "English" none "NA" (some "doc") 1 ≠ [] := by
  constructor
  · decide
  · decide

/-- C4 (amended): the emitter's sole filtering rule is Python truthiness of
the text argument: `write` is a no-op exactly when the text is the empty
string, and otherwise writes one block carrying the text as passed (it does
not itself trim).  Whitespace-only text would be written, but every call
site strips the text and checks the result before calling, so no record of
any walk ever carries empty or whitespace-only text. -/
theorem claim_C4_amended :
    (∀ (text : String) (sp : Option String) (l1v : String)
        (pid : Option String) (tt : String) (od : Option String) (i : Nat),
      write text sp l1v pid tt od i = [] ↔ text = "") ∧
    (∀ (u : Elem) (tt : String) (od : Option String) (n : Nat) (r : Record),
      r ∈ (process_utterance u tt od n none).1 → strip r.text ≠ "") := by
  constructor
  · intro text sp l1v pid tt od i
    by_cases hp : pyTruthy text = true
    · simp [write, hp, pyTruthy_iff.mp hp]
    · have hemp : text = "" := by
        cases hb : (text == "") with
        | true => exact eq_of_beq hb
        | false => exact absurd (by simp [pyTruthy, hb]) hp
      simp [write, hemp, pyTruthy]
  · intro u tt od n r hr
    have h := process_utterance_texts u tt od n none trivial r hr
    have h2 := pyTruthy_strip_of_hasInk h
    rw [pyTruthy_iff] at h2
    exact h2

/-- Witness for C4 (amended): the empty text is a no-op, and the record
emitted for the node with text "hi" has non-whitespace content. -/
theorem claim_C4_amended_witness :
    (write "" none "English" none "NA" (some "doc") 1 = [] ↔
      ("" : String) = "") ∧
    (({ sp_status := none, l1 := "English", person_id := some "S1",
        text_type := "NA", original_doc := some "doc", utterance_id := 1,
        text := "hi" } : Record) ∈
      (process_utterance (.mk "U" [("WHO", "S1")] (some "hi") none .nil)
        "NA" (some "doc") 1 none).1) ∧
    strip "hi" ≠ "" :=
  ⟨claim_C4_amended.1 "" none "English" none "NA" (some "doc") 1,
    by decide,
    claim_C4_amended.2 (.mk "U" [("WHO", "S1")] (some "hi") none .nil)
      "NA" (some "doc") 1
      { sp_status := none, l1 := "English", person_id := some "S1",
        text_type := "NA", original_doc := some "doc", utterance_id := 1,
        text := "hi" } (by decide)⟩

end MICASE
